import Mathlib

/-!
# Verification of the scuttlebutt repository store

Shallow embedding of the scuttlebutt repository store (benbjohnson/scuttlebutt).
The repository contains two historical revisions of the store:

* the protobuf-backed `Store` (src/unnamed/part_002 together with
  src/internal/internal.pb.go): repositories carry a `Notified` flag, incoming
  messages are deduplicated by message ID, and unknown repositories are fetched
  through a remote metadata resolver;
* the JSON-backed `Tx` layer (src/db.go together with src/scuttlebutt.go):
  repositories are excluded from aggregation through a separate `blacklist`
  bucket, and per-account notification timing lives in a `status` bucket.

Both are embedded here.  Bolt buckets are modelled as association lists ordered
by key (bolt iterates keys in byte order); the protobuf / JSON marshalling of a
record into the bucket value is treated as transparent except for the explicit
`encodeRepository`/`decodeRepository` conversion layer of part_002, which is
embedded verbatim.  `bolt.DB.Update` commits the transaction iff the inner
function returns nil, otherwise it rolls back; `boltUpdate` models exactly that.
-/

set_option linter.unusedVariables false

namespace Scuttlebutt

/-- Modelled from the spec: the application-level Message record (numeric ID,
text content, owning repository ID).  Its Go struct definition belongs to the
part_002 revision of the package and is not among the files under src/; the
fields are those of spec section 3 and are the ones used by the tests and by
`encodeMessage` in src/unnamed/part_002. -/
structure Message where
  ID : Nat
  Text : String
  RepositoryID : String
deriving DecidableEq

/-- Modelled from the spec: the application-level Repository record (ID, URL,
description, language, notified flag, ordered messages).  Its Go struct
definition belongs to the part_002 revision of the package and is not among the
files under src/; the fields are those of spec sections 3 and 6. -/
structure Repository where
  ID : String
  URL : String
  Description : String
  Language : String
  Notified : Bool
  Messages : List Message
deriving DecidableEq

/-- internal.Message from src/internal/internal.pb.go: protobuf record with
optional (pointer) fields. -/
structure IMessage where
  ID : Option Nat
  Text : Option String
deriving DecidableEq

/-- internal.Repository from src/internal/internal.pb.go: protobuf record with
optional (pointer) fields.  Note that it has no URL field. -/
structure IRepository where
  ID : Option String
  Description : Option String
  Language : Option String
  Notified : Option Bool
  Messages : List IMessage
deriving DecidableEq

/-- internal.Message.GetID: the value, or the zero value when unset. -/
def IMessage.getID (m : IMessage) : Nat := m.ID.getD 0

/-- internal.Message.GetText. -/
def IMessage.getText (m : IMessage) : String := m.Text.getD ""

/-- internal.Repository.GetID. -/
def IRepository.getID (r : IRepository) : String := r.ID.getD ""

/-- internal.Repository.GetDescription. -/
def IRepository.getDescription (r : IRepository) : String := r.Description.getD ""

/-- internal.Repository.GetLanguage. -/
def IRepository.getLanguage (r : IRepository) : String := r.Language.getD ""

/-- internal.Repository.GetNotified. -/
def IRepository.getNotified (r : IRepository) : Bool := r.Notified.getD false

/-- encodeMessage from src/unnamed/part_002: every field set via
proto.Uint64/proto.String. -/
def encodeMessage (m : Message) : IMessage :=
  { ID := some m.ID, Text := some m.Text }

/-- decodeMessage from src/unnamed/part_002: builds the application Message
from the getters; the RepositoryID field is not set and therefore keeps the Go
zero value "". -/
def decodeMessage (pb : IMessage) : Message :=
  { ID := pb.getID, Text := pb.getText, RepositoryID := "" }

/-- encodeRepository from src/unnamed/part_002.  The internal format has no
URL field, so the URL is dropped here. -/
def encodeRepository (r : Repository) : IRepository :=
  { ID := some r.ID
    Description := some r.Description
    Language := some r.Language
    Notified := some r.Notified
    Messages := r.Messages.map encodeMessage }

/-- decodeRepository from src/unnamed/part_002: builds the application
Repository from the getters; the URL field is not set and therefore keeps the
Go zero value "". -/
def decodeRepository (pb : IRepository) : Repository :=
  { ID := pb.getID
    URL := ""
    Description := pb.getDescription
    Language := pb.getLanguage
    Notified := pb.getNotified
    Messages := pb.Messages.map decodeMessage }

/-- The `repositories` bolt bucket of the part_002 Store: an association list
of key/record pairs kept in key order (bolt stores keys in byte order and its
cursor iterates them in that order). -/
abbrev Bucket := List (String × IRepository)

/-- Bucket.Get: the value stored under a key, if present. -/
def bucketGet : Bucket → String → Option IRepository
  | [], _ => none
  | (k, v) :: rest, id => if k = id then some v else bucketGet rest id

/-- Bucket.Put: replaces the value under the key, or inserts the pair at its
ordered position (bolt buckets are ordered by key). -/
def bucketPut : Bucket → String → IRepository → Bucket
  | [], k, v => [(k, v)]
  | (k', v') :: rest, k, v =>
    if k < k' then (k, v) :: (k', v') :: rest
    else if k = k' then (k, v) :: rest
    else (k', v') :: bucketPut rest k v

/-- The result of Store.RemoteStore.Repository(id): a Go pair
(*Repository, error), split into its three meaningful cases -- a repository,
(nil, nil) for "no such repository", or an error. -/
inductive RemoteResult where
  | ok (r : Repository)
  | notFound
  | err (msg : String)

/-- The errors produced inside the part_002 Store: the errDuplicateMessage
marker, ErrRepositoryNotFound, and a remote error wrapped by
fmt.Errorf("remote: %s", err). -/
inductive StoreErr where
  | duplicateMessage
  | repositoryNotFound
  | remote (msg : String)
deriving DecidableEq

/-- The body of the db.Update closure in Store.AddMessage
(src/unnamed/part_002 lines 113-147): look the repository up locally, fall
back to the remote store on a miss, reject duplicates by message ID, append
the encoded message and save under the record's own ID. -/
def addMessageTx (remote : String → RemoteResult) (b : Bucket) (m : Message) :
    Except StoreErr Bucket :=
  let fetched : Except StoreErr IRepository :=
    match bucketGet b m.RepositoryID with
    | some r => .ok r
    | none =>
      match remote m.RepositoryID with
      | .err s => .error (.remote ("remote: " ++ s))
      | .notFound => .error .repositoryNotFound
      | .ok repo => .ok (encodeRepository repo)
  match fetched with
  | .error e => .error e
  | .ok r =>
    if r.Messages.any (fun msg => msg.getID == m.ID) then
      .error .duplicateMessage
    else
      let r' : IRepository := { r with Messages := r.Messages ++ [encodeMessage m] }
      .ok (bucketPut b r'.getID r')

/-- bolt.DB.Update: the transaction commits iff the inner function succeeds,
otherwise every write is rolled back and the bucket is unchanged. -/
def boltUpdate (b : Bucket) (fn : Bucket → Except StoreErr Bucket) :
    Option StoreErr × Bucket :=
  match fn b with
  | .ok b' => (none, b')
  | .error e => (some e, b)

/-- Store.AddMessage from src/unnamed/part_002: runs `addMessageTx` inside a
write transaction and absorbs the errDuplicateMessage marker ("ignore
duplicates"), so a duplicate is success with no mutation. -/
def addMessage (remote : String → RemoteResult) (b : Bucket) (m : Message) :
    Option StoreErr × Bucket :=
  match boltUpdate b (fun tx => addMessageTx remote tx m) with
  | (some .duplicateMessage, b') => (none, b')
  | other => other

/-- The body of the db.Update closure in Store.MarkNotified
(src/unnamed/part_002 lines 228-245): fail with ErrRepositoryNotFound when the
repository is absent, otherwise set the Notified flag and save the record
under its own ID. -/
def markNotifiedTx (b : Bucket) (id : String) : Except StoreErr Bucket :=
  match bucketGet b id with
  | none => .error .repositoryNotFound
  | some r =>
    let r' : IRepository := { r with Notified := some true }
    .ok (bucketPut b r'.getID r')

/-- Store.MarkNotified from src/unnamed/part_002. -/
def markNotified (b : Bucket) (id : String) : Option StoreErr × Bucket :=
  boltUpdate b (fun tx => markNotifiedTx tx id)

/-- Pointwise update of a map modelled as a function, mirroring the Go map
assignment m[lang] = repo. -/
def mapUpdate {α : Type} (f : String → Option α) (k : String) (v : α) :
    String → Option α :=
  fun k' => if k' = k then some v else f k'

/-- The cursor loop of Store.TopRepositories (src/unnamed/part_002 lines
199-222): walk the bucket in key order, skip notified repositories, and
replace the candidate for the repository's language only when the new message
count is strictly greater. -/
def topRepositoriesAux (acc : String → Option Repository) :
    List (String × IRepository) → (String → Option Repository)
  | [] => acc
  | (_, r) :: rest =>
    if r.getNotified then
      topRepositoriesAux acc rest
    else
      match acc r.getLanguage with
      | some cur =>
        if r.Messages.length ≤ cur.Messages.length then
          topRepositoriesAux acc rest
        else
          topRepositoriesAux (mapUpdate acc r.getLanguage (decodeRepository r)) rest
      | none =>
        topRepositoriesAux (mapUpdate acc r.getLanguage (decodeRepository r)) rest

/-- Store.TopRepositories from src/unnamed/part_002: the most mentioned
non-notified repository per language. -/
def topRepositories (b : Bucket) : String → Option Repository :=
  topRepositoriesAux (fun _ => none) b

/-- Go strings.Split(s, "/") on the character list of s: cuts at every
slash, keeping empty segments. -/
def splitSlash : List Char → List (List Char)
  | [] => [[]]
  | c :: rest =>
    match splitSlash rest with
    | s :: ss => if c = '/' then [] :: s :: ss else (c :: s) :: ss
    | [] => [[]]

/-- github.Store.Repository from src/github/github.go: the metadata resolver.
It first validates the repository ID (strings.Split(id, "/") must give exactly
3 segments, otherwise ErrInvalidRepositoryID) and only then fetches the data
from the GitHub API; the network fetch is a parameter here. -/
def githubRepository (fetch : String → RemoteResult) (id : String) : RemoteResult :=
  if (splitSlash id.toList).length ≠ 3 then .err "invalid repository id"
  else fetch id

/-! ## The JSON bucket revision (src/db.go with the record types of
src/scuttlebutt.go) -/

/-- Message from src/scuttlebutt.go (the JSON revision): numeric ID and
text. -/
structure JMessage where
  ID : Int
  Text : String
deriving DecidableEq

/-- Repository from src/scuttlebutt.go (the JSON revision). -/
structure JRepository where
  ID : String
  URL : String
  Description : String
  Language : String
  Messages : List JMessage
deriving DecidableEq

/-- Account from src/scuttlebutt.go. -/
structure Account where
  Username : String
  Language : String
  Key : String
  Secret : String
deriving DecidableEq

/-- AccountStatus from src/scuttlebutt.go: the last-notify timestamp.  Times
are modelled as integer nanoseconds; the time.Time zero value is 0 and
time.Time.IsZero is comparison with 0. -/
structure AccountStatus where
  NotifyTime : Int
deriving DecidableEq

/-- The `status` bolt bucket: account username to decoded AccountStatus. -/
abbrev StatusBucket := List (String × AccountStatus)

/-- The `repositories` bucket of the JSON revision, in key order. -/
abbrev JBucket := List (String × JRepository)

/-- First value stored under a key in an association-list bucket. -/
def assocGet {α : Type} : List (String × α) → String → Option α
  | [], _ => none
  | (k, v) :: rest, id => if k = id then some v else assocGet rest id

/-- Tx.AccountStatus from src/db.go: the decoded status, or the zero value
when no record exists (`var status AccountStatus` is only overwritten when the
stored value is non-empty). -/
def accountStatus (sb : StatusBucket) (username : String) : AccountStatus :=
  match assocGet sb username with
  | some s => s
  | none => { NotifyTime := 0 }

/-- Tx.NotifiableAccounts from src/db.go: keep every account whose last-notify
time is zero or lies more than `duration` before `now`
(status.NotifyTime.IsZero() || time.Now().Sub(status.NotifyTime) > duration).
The function only reads the status bucket; it performs no write. -/
def notifiableAccounts (sb : StatusBucket) : List Account → Int → Int → List Account
  | [], _, _ => []
  | a :: rest, now, duration =>
    let status := accountStatus sb a.Username
    if status.NotifyTime = 0 ∨ now - status.NotifyTime > duration then
      a :: notifiableAccounts sb rest now duration
    else
      notifiableAccounts sb rest now duration

/-- The repository sequence visited by Tx.ForEachRepository from src/db.go: the
`repositories` bucket in key order with blacklisted keys skipped (the
blacklist bucket holds repository IDs as keys). -/
def forEachRepositoryList (rb : JBucket) (bl : List String) : List JRepository :=
  (rb.filter (fun e => !(bl.contains e.1))).map Prod.snd

/-- The loop body of Tx.TopRepositoriesByLanguage from src/db.go: replace the
candidate for the repository's language iff there is none yet or the new
message count is strictly greater
(current == nil || len(current.Messages) < len(r.Messages)). -/
def topByLanguageAux (acc : String → Option JRepository) :
    List JRepository → (String → Option JRepository)
  | [] => acc
  | r :: rest =>
    match acc r.Language with
    | none => topByLanguageAux (mapUpdate acc r.Language r) rest
    | some cur =>
      if cur.Messages.length < r.Messages.length then
        topByLanguageAux (mapUpdate acc r.Language r) rest
      else
        topByLanguageAux acc rest

/-- Tx.TopRepositoriesByLanguage from src/db.go: the most mentioned
non-blacklisted repository per language. -/
def topRepositoriesByLanguage (rb : JBucket) (bl : List String) :
    String → Option JRepository :=
  topByLanguageAux (fun _ => none) (forEachRepositoryList rb bl)

/-! ## Bucket lemmas -/

/-- Keys of the bucket are strictly increasing, as in a bolt B-tree. -/
def KeysOrdered (b : Bucket) : Prop :=
  b.Pairwise (fun e₁ e₂ => e₁.1 < e₂.1)

/-- Reachable store states: keys strictly ordered, every record stored under
its own ID (saveRepository keys the record by r.GetID()), and message IDs
unique within a record (the spec invariant maintained by the duplicate
check). -/
def WFBucket (b : Bucket) : Prop :=
  KeysOrdered b ∧ (∀ e ∈ b, e.2.getID = e.1) ∧
    (∀ e ∈ b, (e.2.Messages.map IMessage.getID).Nodup)

theorem bucketGet_mem {b : Bucket} {k : String} {v : IRepository}
    (h : bucketGet b k = some v) : (k, v) ∈ b := by
  induction b with
  | nil => simp [bucketGet] at h
  | cons e rest ih =>
    obtain ⟨k', v'⟩ := e
    by_cases hk : k' = k
    · subst hk
      simp [bucketGet] at h
      simp [h]
    · simp [bucketGet, hk] at h
      exact List.mem_cons_of_mem _ (ih h)

theorem bucketPut_get_same (b : Bucket) (k : String) (v : IRepository) :
    bucketGet (bucketPut b k v) k = some v := by
  induction b with
  | nil => simp [bucketPut, bucketGet]
  | cons e rest ih =>
    obtain ⟨k', v'⟩ := e
    rcases lt_trichotomy k k' with h | h | h
    · simp [bucketPut, h, bucketGet]
    · subst h
      simp [bucketPut, lt_irrefl, bucketGet]
    · have h1 : ¬ k < k' := not_lt_of_gt h
      have h2 : k ≠ k' := ne_of_gt h
      have h2' : k' ≠ k := Ne.symm h2
      simp [bucketPut, h1, h2, h2', bucketGet, ih]

theorem bucketPut_get_other (b : Bucket) (k k' : String) (v : IRepository)
    (h : k' ≠ k) : bucketGet (bucketPut b k v) k' = bucketGet b k' := by
  have h' : k ≠ k' := Ne.symm h
  induction b with
  | nil => simp [bucketPut, bucketGet, h']
  | cons e rest ih =>
    obtain ⟨k₀, v₀⟩ := e
    rcases lt_trichotomy k k₀ with h1 | h1 | h1
    · simp [bucketPut, h1, bucketGet, h']
    · subst h1
      simp [bucketPut, lt_irrefl, bucketGet, h']
    · have h2 : ¬ k < k₀ := not_lt_of_gt h1
      have h3 : k ≠ k₀ := ne_of_gt h1
      by_cases h4 : k₀ = k'
      · subst h4
        simp [bucketPut, h2, h3, bucketGet]
      · simp [bucketPut, h2, h3, bucketGet, h4, ih]

theorem bucketPut_put_same (b : Bucket) (k : String) (v : IRepository) :
    bucketPut (bucketPut b k v) k v = bucketPut b k v := by
  induction b with
  | nil => simp [bucketPut, lt_irrefl]
  | cons e rest ih =>
    obtain ⟨k', v'⟩ := e
    rcases lt_trichotomy k k' with h | h | h
    · simp [bucketPut, h, lt_irrefl]
    · subst h
      simp [bucketPut, lt_irrefl]
    · have h1 : ¬ k < k' := not_lt_of_gt h
      have h2 : k ≠ k' := ne_of_gt h
      simp [bucketPut, h1, h2, ih]

theorem mem_bucketPut {b : Bucket} {k : String} {v : IRepository}
    {e : String × IRepository} (h : e ∈ bucketPut b k v) :
    e = (k, v) ∨ e ∈ b := by
  induction b with
  | nil =>
    simp [bucketPut] at h
    exact Or.inl h
  | cons e₀ rest ih =>
    obtain ⟨k', v'⟩ := e₀
    by_cases h1 : k < k'
    · simp [bucketPut, h1] at h
      rcases h with h | h | h
      · exact Or.inl h
      · exact Or.inr (by simp [h])
      · exact Or.inr (List.mem_cons_of_mem _ h)
    · by_cases h2 : k = k'
      · subst h2
        simp [bucketPut, h1] at h
        rcases h with h | h
        · exact Or.inl h
        · exact Or.inr (List.mem_cons_of_mem _ h)
      · simp [bucketPut, h1, h2] at h
        rcases h with h | h
        · exact Or.inr (by simp [h])
        · rcases ih h with h' | h'
          · exact Or.inl h'
          · exact Or.inr (List.mem_cons_of_mem _ h')

theorem keysOrdered_bucketPut {b : Bucket} (k : String) (v : IRepository)
    (h : KeysOrdered b) : KeysOrdered (bucketPut b k v) := by
  induction b with
  | nil => simp [bucketPut, KeysOrdered]
  | cons e₀ rest ih =>
    obtain ⟨k', v'⟩ := e₀
    rw [KeysOrdered, List.pairwise_cons] at h
    obtain ⟨hlt, hrest⟩ := h
    rcases lt_trichotomy k k' with h1 | h1 | h1
    · rw [KeysOrdered]
      simp only [bucketPut, h1, if_pos]
      refine List.Pairwise.cons ?_ (List.Pairwise.cons hlt hrest)
      intro e he
      rcases List.mem_cons.mp he with he | he
      · subst he; exact h1
      · exact lt_trans h1 (hlt e he)
    · subst h1
      rw [KeysOrdered]
      simp only [bucketPut, lt_irrefl, if_neg (lt_irrefl k), if_pos rfl]
      exact List.Pairwise.cons hlt hrest
    · have h2 : ¬ k < k' := not_lt_of_gt h1
      have h3 : k ≠ k' := ne_of_gt h1
      rw [KeysOrdered]
      simp only [bucketPut, h2, if_neg, h3, if_neg (fun h' => h3 h')]
      refine List.Pairwise.cons ?_ (ih hrest)
      intro e he
      rcases mem_bucketPut he with he | he
      · subst he; exact h1
      · exact hlt e he

theorem bucketGet_of_mem {b : Bucket} {k : String} {v : IRepository}
    (hord : KeysOrdered b) (h : (k, v) ∈ b) : bucketGet b k = some v := by
  induction b with
  | nil => simp at h
  | cons e₀ rest ih =>
    obtain ⟨k', v'⟩ := e₀
    rw [KeysOrdered, List.pairwise_cons] at hord
    obtain ⟨hlt, hrest⟩ := hord
    rcases List.mem_cons.mp h with h | h
    · rw [Prod.mk.injEq] at h
      obtain ⟨h1, h2⟩ := h
      simp [bucketGet, h1.symm, h2]
    · have hk : k' ≠ k := ne_of_lt (hlt _ h)
      simp [bucketGet, hk, ih hrest h]

/-! ## Claim C3: NotFound and resolver-error atomicity -/

/-- C3: when a message's repository is absent from the local store, a
resolver "no such repository" answer makes AddMessage return
ErrRepositoryNotFound and a resolver error makes it return the wrapped
"remote:" error; in both cases, and likewise when MarkNotified is called with
an absent repository ID, the transaction is rolled back and the whole store
state is unchanged. -/
theorem addMessage_markNotified_error_atomic
    (remote : String → RemoteResult) (b : Bucket) (m : Message) (id s : String) :
    (bucketGet b m.RepositoryID = none → remote m.RepositoryID = .notFound →
      addMessage remote b m = (some .repositoryNotFound, b)) ∧
    (bucketGet b m.RepositoryID = none → remote m.RepositoryID = .err s →
      addMessage remote b m = (some (.remote ("remote: " ++ s)), b)) ∧
    (bucketGet b id = none → markNotified b id = (some .repositoryNotFound, b)) := by
  refine ⟨fun h1 h2 => ?_, fun h1 h2 => ?_, fun h1 => ?_⟩
  · simp [addMessage, boltUpdate, addMessageTx, h1, h2]
  · simp [addMessage, boltUpdate, addMessageTx, h1, h2]
  · simp [markNotified, boltUpdate, markNotifiedTx, h1]

theorem addMessage_markNotified_error_atomic_witness :
    (bucketGet [] "github.com/a/ghost" = none ∧
      addMessage (fun _ => .notFound) [] ⟨1, "hi", "github.com/a/ghost"⟩ =
        (some .repositoryNotFound, []) ∧
      addMessage (fun _ => .err "marker") [] ⟨1, "hi", "github.com/a/ghost"⟩ =
        (some (.remote "remote: marker"), []) ∧
      markNotified [] "github.com/a/ghost" = (some .repositoryNotFound, [])) := by
  have h := addMessage_markNotified_error_atomic (fun _ => .notFound) []
    ⟨1, "hi", "github.com/a/ghost"⟩ "github.com/a/ghost" "marker"
  have h' := addMessage_markNotified_error_atomic (fun _ => .err "marker") []
    ⟨1, "hi", "github.com/a/ghost"⟩ "github.com/a/ghost" "marker"
  exact ⟨rfl, h.1 rfl rfl, h'.2.1 rfl rfl, h.2.2 rfl⟩

/-! ## Claim C5: resolver precedence -/

/-- C5: when the repository of the incoming message already exists in the
local store, Store.AddMessage never consults the remote metadata resolver: its
result is the same for every resolver. -/
theorem addMessage_resolver_precedence
    (remote₁ remote₂ : String → RemoteResult) (b : Bucket) (m : Message)
    (ir : IRepository) (h : bucketGet b m.RepositoryID = some ir) :
    addMessage remote₁ b m = addMessage remote₂ b m := by
  simp [addMessage, boltUpdate, addMessageTx, h]

theorem addMessage_resolver_precedence_witness :
    bucketGet [("github.com/u/r", ⟨some "github.com/u/r", some "", some "go", some false, []⟩)]
        "github.com/u/r" = some ⟨some "github.com/u/r", some "", some "go", some false, []⟩ ∧
    addMessage (fun _ => .notFound)
        [("github.com/u/r", ⟨some "github.com/u/r", some "", some "go", some false, []⟩)]
        ⟨1, "hi", "github.com/u/r"⟩ =
      addMessage (fun _ => .err "boom")
        [("github.com/u/r", ⟨some "github.com/u/r", some "", some "go", some false, []⟩)]
        ⟨1, "hi", "github.com/u/r"⟩ :=
  ⟨by rfl, addMessage_resolver_precedence (fun _ => .notFound) (fun _ => .err "boom")
    [("github.com/u/r", ⟨some "github.com/u/r", some "", some "go", some false, []⟩)]
    ⟨1, "hi", "github.com/u/r"⟩ ⟨some "github.com/u/r", some "", some "go", some false, []⟩ (by rfl)⟩

/-! ## Claim C8: MarkNotified is idempotent -/

/-- C8: if MarkNotified(r) succeeds, a second MarkNotified(r) also succeeds
and leaves the whole store state exactly as it was after the first call. -/
theorem markNotified_idempotent (b b' : Bucket) (r : String)
    (h : markNotified b r = (none, b')) :
    markNotified b' r = (none, b') := by
  simp only [markNotified, boltUpdate, markNotifiedTx] at h ⊢
  cases hg : bucketGet b r with
  | none => simp [hg] at h
  | some e₀ =>
    obtain ⟨i, d, l, n, ms⟩ := e₀
    simp only [hg, Prod.mk.injEq] at h
    obtain ⟨-, hb⟩ := h
    by_cases hk : (IRepository.getID ⟨i, d, l, some true, ms⟩) = r
    · have hget : bucketGet b' r = some ⟨i, d, l, some true, ms⟩ := by
        rw [← hb, ← hk]
        exact bucketPut_get_same ..
      simp only [hget]
      rw [← hb, bucketPut_put_same]
    · have hget : bucketGet b' r = some ⟨i, d, l, n, ms⟩ := by
        rw [← hb, bucketPut_get_other _ _ _ _ (fun h' => hk h'.symm)]
        exact hg
      simp only [hget]
      rw [← hb, bucketPut_put_same]

theorem markNotified_idempotent_witness :
    markNotified [("a/b/c", ⟨some "a/b/c", some "", some "go", some false, []⟩)] "a/b/c" =
      (none, [("a/b/c", ⟨some "a/b/c", some "", some "go", some true, []⟩)]) ∧
    markNotified [("a/b/c", ⟨some "a/b/c", some "", some "go", some true, []⟩)] "a/b/c" =
      (none, [("a/b/c", ⟨some "a/b/c", some "", some "go", some true, []⟩)]) :=
  ⟨by simp [markNotified, boltUpdate, markNotifiedTx, bucketGet, bucketPut, IRepository.getID],
   markNotified_idempotent
    [("a/b/c", ⟨some "a/b/c", some "", some "go", some false, []⟩)]
    [("a/b/c", ⟨some "a/b/c", some "", some "go", some true, []⟩)] "a/b/c"
    (by simp [markNotified, boltUpdate, markNotifiedTx, bucketGet, bucketPut, IRepository.getID])⟩

/-! ## Claim C10: duplicate detection compares only message IDs -/

/-- C10: when the repository already holds a message whose ID equals the
incoming message's ID, Store.AddMessage succeeds and leaves the store
completely unchanged even when the incoming text differs -- the previously
stored text stays, and no second message is appended. -/
theorem addMessage_duplicate_ignores_text
    (remote : String → RemoteResult) (b : Bucket) (rid t' : String)
    (mid : Nat) (ir : IRepository)
    (h1 : bucketGet b rid = some ir)
    (h2 : ir.Messages.any (fun msg => msg.getID == mid) = true) :
    addMessage remote b ⟨mid, t', rid⟩ = (none, b) := by
  simp [addMessage, boltUpdate, addMessageTx, h1, h2]

theorem addMessage_duplicate_ignores_text_witness :
    bucketGet [("a/b/c", ⟨some "a/b/c", some "", some "go", some false,
        [⟨some 1, some "old text"⟩]⟩)] "a/b/c" =
      some ⟨some "a/b/c", some "", some "go", some false, [⟨some 1, some "old text"⟩]⟩ ∧
    (IRepository.Messages ⟨some "a/b/c", some "", some "go", some false,
        [⟨some 1, some "old text"⟩]⟩).any (fun msg => msg.getID == 1) = true ∧
    addMessage (fun _ => .notFound)
        [("a/b/c", ⟨some "a/b/c", some "", some "go", some false, [⟨some 1, some "old text"⟩]⟩)]
        ⟨1, "different text", "a/b/c"⟩ =
      (none, [("a/b/c", ⟨some "a/b/c", some "", some "go", some false,
        [⟨some 1, some "old text"⟩]⟩)]) :=
  ⟨by rfl, by rfl, addMessage_duplicate_ignores_text (fun _ => .notFound)
    [("a/b/c", ⟨some "a/b/c", some "", some "go", some false, [⟨some 1, some "old text"⟩]⟩)]
    "a/b/c" "different text" 1
    ⟨some "a/b/c", some "", some "go", some false, [⟨some 1, some "old text"⟩]⟩
    (by rfl) (by rfl)⟩

/-! ## Claim C7: persistence round-trip -/

/-- C7 counterexample: the claim "storing the record and reloading it yields a
value with every field unchanged" fails for a repository with a non-empty URL
(and for a message with a non-empty RepositoryID): the internal protobuf
format of src/internal/internal.pb.go has no URL field and encodeMessage drops
the RepositoryID, so decodeRepository returns them as empty strings. -/
theorem roundtrip_cex :
    decodeRepository (encodeRepository
      { ID := "github.com/user/repo", URL := "https://github.com/user/repo",
        Description := "d", Language := "go", Notified := false,
        Messages := [{ ID := 1, Text := "hi", RepositoryID := "github.com/user/repo" }] }) ≠
    { ID := "github.com/user/repo", URL := "https://github.com/user/repo",
      Description := "d", Language := "go", Notified := false,
      Messages := [{ ID := 1, Text := "hi", RepositoryID := "github.com/user/repo" }] } := by
  decide

/-- C7 amended: a store → reload cycle through the part_002 codec preserves a
repository's ID, description, language, notified flag and its message list in
exactly its stored order with every message's ID and text intact, but returns
the repository's URL and each message's owning-repository ID as empty strings
-- those two fields are not part of the persisted internal format. -/
theorem roundtrip_amended (r : Repository) :
    decodeRepository (encodeRepository r) =
      { r with
        URL := ""
        Messages := r.Messages.map (fun ms => { ms with RepositoryID := "" }) } := by
  simp only [decodeRepository, encodeRepository, IRepository.getID,
    IRepository.getDescription, IRepository.getLanguage, IRepository.getNotified,
    Option.getD_some, List.map_map]
  refine congrArg _ ?_
  simp only [Function.comp_def, decodeMessage, encodeMessage, IMessage.getID,
    IMessage.getText, Option.getD_some]

/-! ## Claim C6: scheduler gating -/

/-- C6: Tx.NotifiableAccounts returns exactly the accounts whose stored
last-notify timestamp is zero/absent or whose elapsed time since that
timestamp strictly exceeds the interval -- in particular every account with no
recorded status is included, and an account notified less than one interval
ago is excluded; the function is a pure read of the status bucket (its
embedding consumes the bucket read-only; the source performs no write). -/
theorem notifiableAccounts_gating (sb : StatusBucket) (accounts : List Account)
    (now d : Int) :
    notifiableAccounts sb accounts now d =
      accounts.filter (fun a =>
        decide ((accountStatus sb a.Username).NotifyTime = 0 ∨
          now - (accountStatus sb a.Username).NotifyTime > d)) ∧
    (∀ a : Account, a ∈ notifiableAccounts sb accounts now d ↔
      (a ∈ accounts ∧ ((accountStatus sb a.Username).NotifyTime = 0 ∨
        now - (accountStatus sb a.Username).NotifyTime > d))) ∧
    (∀ a : Account, assocGet sb a.Username = none →
      a ∈ accounts → a ∈ notifiableAccounts sb accounts now d) := by
  have hf : notifiableAccounts sb accounts now d =
      accounts.filter (fun a =>
        decide ((accountStatus sb a.Username).NotifyTime = 0 ∨
          now - (accountStatus sb a.Username).NotifyTime > d)) := by
    induction accounts with
    | nil => rfl
    | cons a rest ih =>
      by_cases h : (accountStatus sb a.Username).NotifyTime = 0 ∨
          now - (accountStatus sb a.Username).NotifyTime > d
      · simp [notifiableAccounts, h, List.filter, ih]
      · simp [notifiableAccounts, h, List.filter, ih]
  refine ⟨hf, fun a => ?_, fun a hnone hmem => ?_⟩
  · rw [hf, List.mem_filter]
    simp
  · rw [hf, List.mem_filter]
    refine ⟨hmem, ?_⟩
    simp [accountStatus, hnone]

theorem notifiableAccounts_gating_witness :
    notifiableAccounts [("u2", ⟨120⟩), ("u3", ⟨100⟩)]
        [⟨"u1", "go", "", ""⟩, ⟨"u2", "javascript", "", ""⟩, ⟨"u3", "ruby", "", ""⟩]
        150 40 =
      [⟨"u1", "go", "", ""⟩, ⟨"u3", "ruby", "", ""⟩] ∧
    (⟨"u1", "go", "", ""⟩ : Account) ∈ notifiableAccounts [("u2", ⟨120⟩), ("u3", ⟨100⟩)]
        [⟨"u1", "go", "", ""⟩, ⟨"u2", "javascript", "", ""⟩, ⟨"u3", "ruby", "", ""⟩] 150 40 := by
  constructor
  · decide
  · exact (notifiableAccounts_gating [("u2", ⟨120⟩), ("u3", ⟨100⟩)]
      [⟨"u1", "go", "", ""⟩, ⟨"u2", "javascript", "", ""⟩, ⟨"u3", "ruby", "", ""⟩]
      150 40).2.2 ⟨"u1", "go", "", ""⟩ (by decide) (by decide)

/-! ## Claim C9: invalid-argument rejection -/

theorem getID_with_messages (r : IRepository) (ms : List IMessage) :
    ({ r with Messages := ms } : IRepository).getID = r.getID := rfl

/-- C9 counterexample: a message with the zero message ID is not rejected by
Store.AddMessage -- with its repository present locally the call succeeds and
the message is persisted, where the claim demands rejection with an
invalid-argument error and no persisted change. -/
theorem invalid_argument_cex :
    addMessage (fun _ => .notFound)
        [("github.com/u/r", ⟨some "github.com/u/r", some "", some "go", some false, []⟩)]
        ⟨0, "hello", "github.com/u/r"⟩ =
      (none, [("github.com/u/r", ⟨some "github.com/u/r", some "", some "go", some false,
        [⟨some 0, some "hello"⟩]⟩)]) ∧
    [("github.com/u/r", (⟨some "github.com/u/r", some "", some "go", some false,
        [⟨some 0, some "hello"⟩]⟩ : IRepository))] ≠
      [("github.com/u/r", ⟨some "github.com/u/r", some "", some "go", some false, []⟩)] := by
  constructor
  · simp [addMessage, boltUpdate, addMessageTx, bucketGet, bucketPut,
      IRepository.getID, encodeMessage, IMessage.getID]
  · decide

/-- C9 amended: a repository ID that does not split into exactly three
segments is rejected when (and only when) the repository is absent locally and
the github resolver is consulted: the resolver's ErrInvalidRepositoryID comes
back wrapped as a remote error and the enclosing write transaction -- which
has already begun -- rolls back, so no persisted change occurs.  A zero
message ID is not validated by AddMessage at all: with the repository present
locally the message is stored normally (zero tweet IDs are filtered out at the
ingestion layer, before AddMessage is ever called). -/
theorem invalid_argument_amended
    (fetch : String → RemoteResult) (b : Bucket) (m : Message)
    (rid t : String) (ir : IRepository) :
    (bucketGet b m.RepositoryID = none → (splitSlash m.RepositoryID.toList).length ≠ 3 →
      addMessage (githubRepository fetch) b m =
        (some (.remote "remote: invalid repository id"), b)) ∧
    (bucketGet b rid = some ir → ir.Messages.any (fun msg => msg.getID == 0) = false →
      ir.getID = rid →
      ∃ b', addMessage (githubRepository fetch) b ⟨0, t, rid⟩ = (none, b') ∧
        bucketGet b' rid =
          some { ir with Messages := ir.Messages ++ [encodeMessage ⟨0, t, rid⟩] }) := by
  constructor
  · intro h1 h2
    have h2' : (splitSlash m.RepositoryID.data).length ≠ 3 := h2
    have hg : githubRepository fetch m.RepositoryID = .err "invalid repository id" := by
      simp [githubRepository, h2']
    simp [addMessage, boltUpdate, addMessageTx, h1, hg]
  · intro h1 h2 hid
    refine ⟨bucketPut b rid { ir with Messages := ir.Messages ++ [encodeMessage ⟨0, t, rid⟩] },
      ?_, bucketPut_get_same ..⟩
    simp only [addMessage, boltUpdate, addMessageTx, h1, h2, Bool.false_eq_true,
      if_false, getID_with_messages, hid]

theorem invalid_argument_amended_witness :
    bucketGet [("github.com/u/r", ⟨some "github.com/u/r", some "", some "go", some false, []⟩)]
        "badid" = none ∧
    (splitSlash "badid".toList).length ≠ 3 ∧
    addMessage (githubRepository (fun _ => .notFound))
        [("github.com/u/r", ⟨some "github.com/u/r", some "", some "go", some false, []⟩)]
        ⟨7, "x", "badid"⟩ =
      (some (.remote "remote: invalid repository id"),
        [("github.com/u/r", ⟨some "github.com/u/r", some "", some "go", some false, []⟩)]) ∧
    (∃ b', addMessage (githubRepository (fun _ => .notFound))
        [("github.com/u/r", ⟨some "github.com/u/r", some "", some "go", some false, []⟩)]
        ⟨0, "hello", "github.com/u/r"⟩ = (none, b') ∧
      bucketGet b' "github.com/u/r" =
        some ⟨some "github.com/u/r", some "", some "go", some false, [⟨some 0, some "hello"⟩]⟩) := by
  refine ⟨by decide, by decide, ?_, ?_⟩
  · exact (invalid_argument_amended (fun _ => .notFound)
      [("github.com/u/r", ⟨some "github.com/u/r", some "", some "go", some false, []⟩)]
      ⟨7, "x", "badid"⟩ "github.com/u/r" "hello"
      ⟨some "github.com/u/r", some "", some "go", some false, []⟩).1 (by decide) (by decide)
  · exact (invalid_argument_amended (fun _ => .notFound)
      [("github.com/u/r", ⟨some "github.com/u/r", some "", some "go", some false, []⟩)]
      ⟨7, "x", "badid"⟩ "github.com/u/r" "hello"
      ⟨some "github.com/u/r", some "", some "go", some false, []⟩).2 (by decide) (by decide) (by decide)

/-! ## Claim C2: ranking correctness -/

/-- The candidate-selection step shared by both top-repository loops: keep the
current candidate unless the next repository has strictly more messages. -/
def pickMax {α : Type} (count : α → Nat) : Option α → List α → Option α
  | acc, [] => acc
  | none, r :: rest => pickMax count (some r) rest
  | some c, r :: rest =>
    if count r ≤ count c then pickMax count (some c) rest
    else pickMax count (some r) rest

theorem pickMax_isSome {α : Type} (count : α → Nat) (c : α) (l : List α) :
    (pickMax count (some c) l).isSome := by
  induction l generalizing c with
  | nil => simp [pickMax]
  | cons x rest ih =>
    by_cases h : count x ≤ count c
    · simpa [pickMax, h] using ih c
    · simpa [pickMax, h] using ih x

theorem pickMax_none_iff {α : Type} (count : α → Nat) (l : List α) :
    pickMax count none l = none ↔ l = [] := by
  cases l with
  | nil => simp [pickMax]
  | cons x rest =>
    simp only [pickMax]
    constructor
    · intro h
      have := pickMax_isSome count x rest
      rw [h] at this
      simp at this
    · intro h
      simp at h

theorem pickMax_acc_sound {α : Type} (count : α → Nat) (l : List α) (c r : α)
    (h : pickMax count (some c) l = some r) :
    (r = c ∧ ∀ y ∈ l, count y ≤ count c) ∨
    (∃ l₁ l₂, l = l₁ ++ r :: l₂ ∧ count c < count r ∧
      (∀ y ∈ l₁, count y < count r) ∧ (∀ y ∈ l₂, count y ≤ count r)) := by
  induction l generalizing c with
  | nil =>
    simp [pickMax] at h
    exact Or.inl ⟨h.symm, by simp⟩
  | cons x rest ih =>
    by_cases hx : count x ≤ count c
    · rw [pickMax, if_pos hx] at h
      rcases ih c h with ⟨hr, hall⟩ | ⟨l₁, l₂, heq, hlt, h₁, h₂⟩
      · refine Or.inl ⟨hr, fun y hy => ?_⟩
        rcases List.mem_cons.mp hy with hy | hy
        · subst hy; exact hx
        · exact hall y hy
      · refine Or.inr ⟨x :: l₁, l₂, by rw [heq, List.cons_append], hlt, fun y hy => ?_, h₂⟩
        rcases List.mem_cons.mp hy with hy | hy
        · subst hy; exact lt_of_le_of_lt hx hlt
        · exact h₁ y hy
    · have hx' : count c < count x := lt_of_not_le hx
      rw [pickMax, if_neg hx] at h
      rcases ih x h with ⟨hr, hall⟩ | ⟨l₁, l₂, heq, hlt, h₁, h₂⟩
      · subst hr
        exact Or.inr ⟨[], rest, rfl, hx', by simp, hall⟩
      · refine Or.inr ⟨x :: l₁, l₂, by rw [heq, List.cons_append],
          lt_trans hx' hlt, fun y hy => ?_, h₂⟩
        rcases List.mem_cons.mp hy with hy | hy
        · subst hy; exact hlt
        · exact h₁ y hy

theorem pickMax_sound {α : Type} (count : α → Nat) (l : List α) (r : α)
    (h : pickMax count none l = some r) :
    ∃ l₁ l₂, l = l₁ ++ r :: l₂ ∧
      (∀ y ∈ l₁, count y < count r) ∧ (∀ y ∈ l₂, count y ≤ count r) := by
  cases l with
  | nil => simp [pickMax] at h
  | cons x rest =>
    rw [pickMax] at h
    rcases pickMax_acc_sound count rest x r h with ⟨hr, hall⟩ | ⟨l₁, l₂, heq, hxr, h₁, h₂⟩
    · subst hr
      exact ⟨[], rest, rfl, by simp, hall⟩
    · refine ⟨x :: l₁, l₂, by rw [heq, List.cons_append], fun y hy => ?_, h₂⟩
      rcases List.mem_cons.mp hy with hy | hy
      · subst hy; exact hxr
      · exact h₁ y hy

/-- The eligible repositories of a language in the part_002 Store, in the
iteration order of the cursor loop: values of the bucket in key order that are
not notified and carry that language. -/
def eligibleRepos (b : Bucket) (lang : String) : List IRepository :=
  (b.map Prod.snd).filter (fun r => !r.getNotified && r.getLanguage == lang)

theorem decode_messages_length (r : IRepository) :
    (decodeRepository r).Messages.length = r.Messages.length := by
  simp [decodeRepository]

theorem topAux_cons_notified (acc : String → Option Repository) (k : String)
    (r : IRepository) (rest : List (String × IRepository))
    (h : r.getNotified = true) :
    topRepositoriesAux acc ((k, r) :: rest) = topRepositoriesAux acc rest := by
  simp [topRepositoriesAux, h]

theorem topAux_cons_new (acc : String → Option Repository) (k : String)
    (r : IRepository) (rest : List (String × IRepository))
    (h : r.getNotified = false) (h2 : acc r.getLanguage = none) :
    topRepositoriesAux acc ((k, r) :: rest) =
      topRepositoriesAux (mapUpdate acc r.getLanguage (decodeRepository r)) rest := by
  simp [topRepositoriesAux, h, h2]

theorem topAux_cons_keep (acc : String → Option Repository) (k : String)
    (r : IRepository) (rest : List (String × IRepository)) (cur : Repository)
    (h : r.getNotified = false) (h2 : acc r.getLanguage = some cur)
    (h3 : r.Messages.length ≤ cur.Messages.length) :
    topRepositoriesAux acc ((k, r) :: rest) = topRepositoriesAux acc rest := by
  simp [topRepositoriesAux, h, h2, h3]

theorem topAux_cons_replace (acc : String → Option Repository) (k : String)
    (r : IRepository) (rest : List (String × IRepository)) (cur : Repository)
    (h : r.getNotified = false) (h2 : acc r.getLanguage = some cur)
    (h3 : ¬ r.Messages.length ≤ cur.Messages.length) :
    topRepositoriesAux acc ((k, r) :: rest) =
      topRepositoriesAux (mapUpdate acc r.getLanguage (decodeRepository r)) rest := by
  simp [topRepositoriesAux, h, h2, h3]

theorem topRepositoriesAux_pickMax (l : List (String × IRepository))
    (acc : String → Option Repository) (lang : String) (a : Option IRepository)
    (ha : acc lang = a.map decodeRepository) :
    topRepositoriesAux acc l lang =
      (pickMax (fun r => r.Messages.length) a (eligibleRepos l lang)).map decodeRepository := by
  induction l generalizing acc a with
  | nil =>
    simpa [topRepositoriesAux, eligibleRepos, pickMax] using ha
  | cons e rest ih =>
    obtain ⟨k, r⟩ := e
    by_cases hn : r.getNotified
    · have helig : eligibleRepos ((k, r) :: rest) lang = eligibleRepos rest lang := by
        simp [eligibleRepos, List.filter_cons, hn]
      rw [helig, topAux_cons_notified acc k r rest hn]
      exact ih acc a ha
    · have hn' : r.getNotified = false := Bool.eq_false_iff.mpr hn
      by_cases hl : r.getLanguage = lang
      · have helig : eligibleRepos ((k, r) :: rest) lang = r :: eligibleRepos rest lang := by
          simp [eligibleRepos, List.filter_cons, hn', hl]
        rw [helig]
        cases a with
        | none =>
          have ha' : acc r.getLanguage = none := by rw [hl, ha]; rfl
          rw [topAux_cons_new acc k r rest hn' ha', pickMax]
          exact ih _ (some r) (by simp [mapUpdate, hl])
        | some c =>
          have ha' : acc r.getLanguage = some (decodeRepository c) := by rw [hl, ha]; rfl
          by_cases hcmp : r.Messages.length ≤ c.Messages.length
          · rw [topAux_cons_keep acc k r rest (decodeRepository c) hn' ha'
              (by rw [decode_messages_length]; exact hcmp)]
            rw [pickMax, if_pos hcmp]
            exact ih acc (some c) ha
          · rw [topAux_cons_replace acc k r rest (decodeRepository c) hn' ha'
              (by rw [decode_messages_length]; exact hcmp)]
            rw [pickMax, if_neg hcmp]
            exact ih _ (some r) (by simp [mapUpdate, hl])
      · have helig : eligibleRepos ((k, r) :: rest) lang = eligibleRepos rest lang := by
          simp [eligibleRepos, List.filter_cons, hn', hl]
        rw [helig]
        have hup : ∀ v : Repository, mapUpdate acc r.getLanguage v lang = acc lang := by
          intro v
          simp [mapUpdate, Ne.symm hl]
        cases hacc : acc r.getLanguage with
        | none =>
          rw [topAux_cons_new acc k r rest hn' hacc]
          exact ih _ a (by rw [hup]; exact ha)
        | some cur =>
          by_cases hcmp : r.Messages.length ≤ cur.Messages.length
          · rw [topAux_cons_keep acc k r rest cur hn' hacc hcmp]
            exact ih acc a ha
          · rw [topAux_cons_replace acc k r rest cur hn' hacc hcmp]
            exact ih _ a (by rw [hup]; exact ha)

theorem topRepositories_pickMax (b : Bucket) (lang : String) :
    topRepositories b lang =
      (pickMax (fun r => r.Messages.length) none (eligibleRepos b lang)).map decodeRepository :=
  topRepositoriesAux_pickMax b (fun _ => none) lang none rfl

/-- The eligible repositories of a language in the db.go revision, in
iteration order: non-blacklisted entries of the repositories bucket whose
value carries that language. -/
def eligibleJRepos (rb : JBucket) (bl : List String) (lang : String) : List JRepository :=
  (forEachRepositoryList rb bl).filter (fun r => r.Language == lang)

theorem topJAux_cons_new (acc : String → Option JRepository) (r : JRepository)
    (rest : List JRepository) (h2 : acc r.Language = none) :
    topByLanguageAux acc (r :: rest) =
      topByLanguageAux (mapUpdate acc r.Language r) rest := by
  simp [topByLanguageAux, h2]

theorem topJAux_cons_replace (acc : String → Option JRepository) (r : JRepository)
    (rest : List JRepository) (cur : JRepository)
    (h2 : acc r.Language = some cur) (h3 : cur.Messages.length < r.Messages.length) :
    topByLanguageAux acc (r :: rest) =
      topByLanguageAux (mapUpdate acc r.Language r) rest := by
  simp [topByLanguageAux, h2, h3]

theorem topJAux_cons_keep (acc : String → Option JRepository) (r : JRepository)
    (rest : List JRepository) (cur : JRepository)
    (h2 : acc r.Language = some cur) (h3 : ¬ cur.Messages.length < r.Messages.length) :
    topByLanguageAux acc (r :: rest) = topByLanguageAux acc rest := by
  simp [topByLanguageAux, h2, h3]

theorem topByLanguageAux_pickMax (l : List JRepository)
    (acc : String → Option JRepository) (lang : String) (a : Option JRepository)
    (ha : acc lang = a) :
    topByLanguageAux acc l lang =
      pickMax (fun r => r.Messages.length) a (l.filter (fun r => r.Language == lang)) := by
  induction l generalizing acc a with
  | nil => simpa [topByLanguageAux, pickMax] using ha
  | cons r rest ih =>
    by_cases hl : r.Language = lang
    · have hfil : (r :: rest).filter (fun r => r.Language == lang) =
          r :: rest.filter (fun r => r.Language == lang) := by
        simp [List.filter_cons, hl]
      rw [hfil]
      cases a with
      | none =>
        have ha' : acc r.Language = none := by rw [hl, ha]
        rw [topJAux_cons_new acc r rest ha', pickMax]
        exact ih _ (some r) (by simp [mapUpdate, hl])
      | some c =>
        have ha' : acc r.Language = some c := by rw [hl, ha]
        by_cases hcmp : c.Messages.length < r.Messages.length
        · rw [topJAux_cons_replace acc r rest c ha' hcmp]
          rw [pickMax, if_neg (not_le_of_lt hcmp)]
          exact ih _ (some r) (by simp [mapUpdate, hl])
        · rw [topJAux_cons_keep acc r rest c ha' hcmp]
          rw [pickMax, if_pos (le_of_not_lt hcmp)]
          exact ih acc (some c) ha
    · have hfil : (r :: rest).filter (fun r => r.Language == lang) =
          rest.filter (fun r => r.Language == lang) := by
        simp [List.filter_cons, hl]
      rw [hfil]
      have hup : ∀ v : JRepository, mapUpdate acc r.Language v lang = acc lang := by
        intro v
        simp [mapUpdate, Ne.symm hl]
      cases hacc : acc r.Language with
      | none =>
        rw [topJAux_cons_new acc r rest hacc]
        exact ih _ a (by rw [hup]; exact ha)
      | some cur =>
        by_cases hcmp : cur.Messages.length < r.Messages.length
        · rw [topJAux_cons_replace acc r rest cur hacc hcmp]
          exact ih _ a (by rw [hup]; exact ha)
        · rw [topJAux_cons_keep acc r rest cur hacc hcmp]
          exact ih acc a ha

theorem topRepositoriesByLanguage_pickMax (rb : JBucket) (bl : List String) (lang : String) :
    topRepositoriesByLanguage rb bl lang =
      pickMax (fun r => r.Messages.length) none (eligibleJRepos rb bl lang) :=
  topByLanguageAux_pickMax (forEachRepositoryList rb bl) (fun _ => none) lang none rfl

/-- C2: ranking correctness for both revisions of the aggregation.  For the
part_002 Store, TopRepositories maps a language to `some rep` only when `rep`
decodes an eligible (non-notified) stored repository of that language whose
message count is maximal among the eligible repositories of the language, and
every eligible repository iterated earlier has a strictly smaller count (so on
a tie the earlier-iterated repository wins, a candidate being replaced only on
a strictly greater count); the language is absent exactly when it has no
eligible repository.  For the db.go revision, TopRepositoriesByLanguage
satisfies the same property with eligibility meaning "key not on the
blacklist". -/
theorem top_ranking_correct (b : Bucket) (rb : JBucket) (bl : List String)
    (lang : String) :
    (topRepositories b lang = none ↔ eligibleRepos b lang = []) ∧
    (∀ rep, topRepositories b lang = some rep →
      rep.Notified = false ∧ rep.Language = lang ∧
      ∃ l₁ ir l₂, eligibleRepos b lang = l₁ ++ ir :: l₂ ∧ rep = decodeRepository ir ∧
        (∀ y ∈ l₁, y.Messages.length < ir.Messages.length) ∧
        (∀ y ∈ l₂, y.Messages.length ≤ ir.Messages.length)) ∧
    (topRepositoriesByLanguage rb bl lang = none ↔ eligibleJRepos rb bl lang = []) ∧
    (∀ rep, topRepositoriesByLanguage rb bl lang = some rep →
      rep.Language = lang ∧
      ∃ l₁ l₂, eligibleJRepos rb bl lang = l₁ ++ rep :: l₂ ∧
        (∀ y ∈ l₁, y.Messages.length < rep.Messages.length) ∧
        (∀ y ∈ l₂, y.Messages.length ≤ rep.Messages.length)) := by
  refine ⟨?_, ?_, ?_, ?_⟩
  · rw [topRepositories_pickMax, Option.map_eq_none', pickMax_none_iff]
  · intro rep h
    rw [topRepositories_pickMax, Option.map_eq_some'] at h
    obtain ⟨ir, hpick, hrep⟩ := h
    obtain ⟨l₁, l₂, heq, h₁, h₂⟩ := pickMax_sound _ _ _ hpick
    have hmem : ir ∈ eligibleRepos b lang := by
      rw [heq]
      exact List.mem_append_right _ (List.mem_cons_self _ _)
    have hfil := (List.mem_filter.mp hmem).2
    rw [Bool.and_eq_true, Bool.not_eq_true', beq_iff_eq] at hfil
    refine ⟨?_, ?_, l₁, ir, l₂, heq, hrep.symm, h₁, h₂⟩
    · rw [← hrep]
      simpa [decodeRepository, IRepository.getNotified] using hfil.1
    · rw [← hrep]
      simpa [decodeRepository, IRepository.getLanguage] using hfil.2
  · rw [topRepositoriesByLanguage_pickMax, pickMax_none_iff]
  · intro rep h
    rw [topRepositoriesByLanguage_pickMax] at h
    obtain ⟨l₁, l₂, heq, h₁, h₂⟩ := pickMax_sound _ _ _ h
    have hmem : rep ∈ eligibleJRepos rb bl lang := by
      rw [heq]
      exact List.mem_append_right _ (List.mem_cons_self _ _)
    have hfil := (List.mem_filter.mp hmem).2
    rw [beq_iff_eq] at hfil
    exact ⟨hfil, l₁, l₂, heq, h₁, h₂⟩

theorem top_ranking_correct_witness :
    topRepositories
        [("github.com/a/go1", ⟨some "github.com/a/go1", some "d", some "go", some false,
            [⟨some 1, some "A"⟩]⟩),
         ("github.com/a/go2", ⟨some "github.com/a/go2", some "d", some "go", some false,
            [⟨some 2, some "B"⟩, ⟨some 3, some "C"⟩]⟩),
         ("github.com/a/js1", ⟨some "github.com/a/js1", some "d", some "javascript", some false,
            [⟨some 4, some "D"⟩]⟩)] "go" =
      some (decodeRepository ⟨some "github.com/a/go2", some "d", some "go", some false,
        [⟨some 2, some "B"⟩, ⟨some 3, some "C"⟩]⟩) ∧
    (decodeRepository (⟨some "github.com/a/go2", some "d", some "go", some false,
        [⟨some 2, some "B"⟩, ⟨some 3, some "C"⟩]⟩ : IRepository)).Notified = false ∧
    (decodeRepository (⟨some "github.com/a/go2", some "d", some "go", some false,
        [⟨some 2, some "B"⟩, ⟨some 3, some "C"⟩]⟩ : IRepository)).Language = "go" ∧
    topRepositoriesByLanguage
        [("github.com/a/go1", ⟨"github.com/a/go1", "", "", "go", [⟨1, "A"⟩]⟩),
         ("github.com/a/go2", ⟨"github.com/a/go2", "", "", "go", [⟨2, "B"⟩, ⟨3, "C"⟩]⟩)]
        ["github.com/a/go2"] "go" =
      some ⟨"github.com/a/go1", "", "", "go", [⟨1, "A"⟩]⟩ ∧
    (JRepository.Language ⟨"github.com/a/go1", "", "", "go", [⟨1, "A"⟩]⟩) = "go" := by
  have h1 : topRepositories
      [("github.com/a/go1", ⟨some "github.com/a/go1", some "d", some "go", some false,
          [⟨some 1, some "A"⟩]⟩),
       ("github.com/a/go2", ⟨some "github.com/a/go2", some "d", some "go", some false,
          [⟨some 2, some "B"⟩, ⟨some 3, some "C"⟩]⟩),
       ("github.com/a/js1", ⟨some "github.com/a/js1", some "d", some "javascript", some false,
          [⟨some 4, some "D"⟩]⟩)] "go" =
      some (decodeRepository ⟨some "github.com/a/go2", some "d", some "go", some false,
        [⟨some 2, some "B"⟩, ⟨some 3, some "C"⟩]⟩) := by decide
  have h2 : topRepositoriesByLanguage
      [("github.com/a/go1", ⟨"github.com/a/go1", "", "", "go", [⟨1, "A"⟩]⟩),
       ("github.com/a/go2", ⟨"github.com/a/go2", "", "", "go", [⟨2, "B"⟩, ⟨3, "C"⟩]⟩)]
      ["github.com/a/go2"] "go" =
      some ⟨"github.com/a/go1", "", "", "go", [⟨1, "A"⟩]⟩ := by decide
  have hc := top_ranking_correct
    [("github.com/a/go1", ⟨some "github.com/a/go1", some "d", some "go", some false,
        [⟨some 1, some "A"⟩]⟩),
     ("github.com/a/go2", ⟨some "github.com/a/go2", some "d", some "go", some false,
        [⟨some 2, some "B"⟩, ⟨some 3, some "C"⟩]⟩),
     ("github.com/a/js1", ⟨some "github.com/a/js1", some "d", some "javascript", some false,
        [⟨some 4, some "D"⟩]⟩)]
    [("github.com/a/go1", ⟨"github.com/a/go1", "", "", "go", [⟨1, "A"⟩]⟩),
     ("github.com/a/go2", ⟨"github.com/a/go2", "", "", "go", [⟨2, "B"⟩, ⟨3, "C"⟩]⟩)]
    ["github.com/a/go2"] "go"
  obtain ⟨hn, hl, -⟩ := hc.2.1 _ h1
  obtain ⟨hjl, -⟩ := hc.2.2.2 _ h2
  exact ⟨h1, hn, hl, h2, hjl⟩

/-! ## Claim C1: AddMessage idempotence -/

/-- A resolver that answers for the ID it was asked about, as
github.Store.Repository does (it builds the record with the requested ID). -/
def RemoteWF (remote : String → RemoteResult) : Prop :=
  ∀ id repo, remote id = .ok repo → repo.ID = id

/-- A resolver that returns repository metadata without messages, as
github.Store.Repository does (it only fills ID, language, description). -/
def RemoteFresh (remote : String → RemoteResult) : Prop :=
  ∀ id repo, remote id = .ok repo → repo.Messages = []

/-- Number of stored messages with the given ID under the given repository. -/
def messageCount (b : Bucket) (rid : String) (mid : Nat) : Nat :=
  match bucketGet b rid with
  | none => 0
  | some r => (r.Messages.filter (fun msg => msg.getID == mid)).length

theorem addMessage_of_dup (remote : String → RemoteResult) (b : Bucket) (m : Message)
    (ir : IRepository) (h1 : bucketGet b m.RepositoryID = some ir)
    (h2 : ir.Messages.any (fun msg => msg.getID == m.ID) = true) :
    addMessage remote b m = (none, b) := by
  simp [addMessage, boltUpdate, addMessageTx, h1, h2]

theorem addMessage_of_append (remote : String → RemoteResult) (b : Bucket) (m : Message)
    (ir : IRepository) (h1 : bucketGet b m.RepositoryID = some ir)
    (h2 : ir.Messages.any (fun msg => msg.getID == m.ID) = false) :
    addMessage remote b m =
      (none, bucketPut b ir.getID { ir with Messages := ir.Messages ++ [encodeMessage m] }) := by
  simp [addMessage, boltUpdate, addMessageTx, h1, h2, getID_with_messages]

theorem addMessage_of_create (remote : String → RemoteResult) (b : Bucket) (m : Message)
    (repo : Repository) (h1 : bucketGet b m.RepositoryID = none)
    (h2 : remote m.RepositoryID = .ok repo)
    (h3 : (encodeRepository repo).Messages.any (fun msg => msg.getID == m.ID) = false) :
    addMessage remote b m =
      (none, bucketPut b repo.ID
        { encodeRepository repo with
          Messages := (encodeRepository repo).Messages ++ [encodeMessage m] }) := by
  have hkey : ({ encodeRepository repo with
      Messages := (encodeRepository repo).Messages ++ [encodeMessage m] } :
        IRepository).getID = repo.ID := rfl
  simp [addMessage, boltUpdate, addMessageTx, h1, h2, h3, hkey]

theorem markNotified_of_found (b : Bucket) (id : String) (ir : IRepository)
    (h : bucketGet b id = some ir) :
    markNotified b id = (none, bucketPut b ir.getID { ir with Notified := some true }) := by
  have hkey : ({ ir with Notified := some true } : IRepository).getID = ir.getID := rfl
  simp [markNotified, boltUpdate, markNotifiedTx, h, hkey]

theorem markNotified_of_missing (b : Bucket) (id : String)
    (h : bucketGet b id = none) :
    markNotified b id = (some .repositoryNotFound, b) := by
  simp [markNotified, boltUpdate, markNotifiedTx, h]

theorem filter_getID_length_one (ms : List IMessage) (mid : Nat)
    (hnd : (ms.map IMessage.getID).Nodup) (hmem : ∃ msg ∈ ms, msg.getID = mid) :
    (ms.filter (fun msg => msg.getID == mid)).length = 1 := by
  have h1 : (ms.filter (fun msg => msg.getID == mid)).length
      = List.countP (fun msg => msg.getID == mid) ms :=
    (List.countP_eq_length_filter _ _).symm
  have h2 : List.countP (fun x => x == mid) (ms.map IMessage.getID)
      = List.countP (fun msg => msg.getID == mid) ms := by
    rw [List.countP_map]
    rfl
  have hm : mid ∈ ms.map IMessage.getID := by
    obtain ⟨msg, hmsg, hid⟩ := hmem
    exact List.mem_map.mpr ⟨msg, hmsg, hid⟩
  rw [h1, ← h2]
  exact List.count_eq_one_of_mem hnd hm

/-- C1: when the store is well formed and the resolver behaves like the github
resolver (it answers for the requested ID and returns no messages), a
successful AddMessage followed by a second AddMessage of the identical message
leaves the store with exactly one stored message carrying the message's ID
under its repository, and the second call returns success without changing
anything. -/
theorem addMessage_idempotent (remote : String → RemoteResult) (b b₁ : Bucket)
    (m : Message) (hwf : WFBucket b) (hrm : RemoteWF remote) (hfresh : RemoteFresh remote)
    (h1 : addMessage remote b m = (none, b₁)) :
    addMessage remote b₁ m = (none, b₁) ∧ messageCount b₁ m.RepositoryID m.ID = 1 := by
  obtain ⟨hord, hids, hnd⟩ := hwf
  cases hg : bucketGet b m.RepositoryID with
  | some ir =>
    have hmem := bucketGet_mem hg
    have hid : ir.getID = m.RepositoryID := hids _ hmem
    cases hdup : ir.Messages.any (fun msg => msg.getID == m.ID) with
    | true =>
      rw [addMessage_of_dup remote b m ir hg hdup] at h1
      injection h1 with h1a h1b
      subst h1b
      refine ⟨addMessage_of_dup remote b m ir hg hdup, ?_⟩
      rw [messageCount, hg]
      refine filter_getID_length_one _ _ (hnd _ hmem) ?_
      obtain ⟨msg, hmsg, hbeq⟩ := List.any_eq_true.mp hdup
      exact ⟨msg, hmsg, eq_of_beq hbeq⟩
    | false =>
      rw [addMessage_of_append remote b m ir hg hdup] at h1
      injection h1 with h1a h1b
      have hget1 : bucketGet b₁ m.RepositoryID =
          some { ir with Messages := ir.Messages ++ [encodeMessage m] } := by
        rw [← h1b, ← hid]
        exact bucketPut_get_same ..
      have hdup1 : ({ ir with Messages := ir.Messages ++ [encodeMessage m] } :
          IRepository).Messages.any (fun msg => msg.getID == m.ID) = true := by
        simp [List.any_append, encodeMessage, IMessage.getID]
      refine ⟨addMessage_of_dup remote b₁ m _ hget1 hdup1, ?_⟩
      rw [messageCount, hget1]
      simp only [List.filter_append, List.length_append]
      simp [encodeMessage, IMessage.getID]
      intro a ha
      have hfa := List.any_eq_false.mp hdup a ha
      simpa [IMessage.getID] using hfa
  | none =>
    cases hr : remote m.RepositoryID with
    | err s =>
      have : addMessage remote b m = (some (.remote ("remote: " ++ s)), b) := by
        simp [addMessage, boltUpdate, addMessageTx, hg, hr]
      rw [this] at h1
      exact absurd h1 (by simp)
    | notFound =>
      have : addMessage remote b m = (some .repositoryNotFound, b) := by
        simp [addMessage, boltUpdate, addMessageTx, hg, hr]
      rw [this] at h1
      exact absurd h1 (by simp)
    | ok repo =>
      have hidr : repo.ID = m.RepositoryID := hrm _ _ hr
      have hfr : repo.Messages = [] := hfresh _ _ hr
      have hmsgs : (encodeRepository repo).Messages = [] := by
        simp [encodeRepository, hfr]
      have hany : (encodeRepository repo).Messages.any
          (fun msg => msg.getID == m.ID) = false := by
        rw [hmsgs]
        rfl
      rw [addMessage_of_create remote b m repo hg hr hany] at h1
      injection h1 with h1a h1b
      have hget1 : bucketGet b₁ m.RepositoryID =
          some { encodeRepository repo with
            Messages := (encodeRepository repo).Messages ++ [encodeMessage m] } := by
        rw [← h1b, ← hidr]
        exact bucketPut_get_same ..
      have hdup1 : ({ encodeRepository repo with
          Messages := (encodeRepository repo).Messages ++ [encodeMessage m] } :
            IRepository).Messages.any (fun msg => msg.getID == m.ID) = true := by
        simp [List.any_append, encodeMessage, IMessage.getID]
      refine ⟨addMessage_of_dup remote b₁ m _ hget1 hdup1, ?_⟩
      rw [messageCount, hget1]
      simp [hmsgs, encodeMessage, IMessage.getID]

/-- A concrete resolver in the image of github.Store.Repository: answers for
the requested ID with empty messages. -/
def demoRemote : String → RemoteResult := fun id =>
  .ok { ID := id, URL := "", Description := "", Language := "go",
        Notified := false, Messages := [] }

theorem addMessage_idempotent_witness :
    WFBucket [] ∧ RemoteWF demoRemote ∧ RemoteFresh demoRemote ∧
    addMessage demoRemote [] ⟨1, "A", "a/b/c"⟩ =
      (none, [("a/b/c", ⟨some "a/b/c", some "", some "go", some false,
        [⟨some 1, some "A"⟩]⟩)]) ∧
    addMessage demoRemote
      [("a/b/c", ⟨some "a/b/c", some "", some "go", some false, [⟨some 1, some "A"⟩]⟩)]
      ⟨1, "A", "a/b/c"⟩ =
      (none, [("a/b/c", ⟨some "a/b/c", some "", some "go", some false,
        [⟨some 1, some "A"⟩]⟩)]) ∧
    messageCount [("a/b/c", ⟨some "a/b/c", some "", some "go", some false,
      [⟨some 1, some "A"⟩]⟩)] "a/b/c" 1 = 1 := by
  have hwf : WFBucket [] := ⟨List.Pairwise.nil, by simp, by simp⟩
  have hrm : RemoteWF demoRemote := by
    intro id repo h
    cases h
    rfl
  have hfresh : RemoteFresh demoRemote := by
    intro id repo h
    cases h
    rfl
  have h1 : addMessage demoRemote [] ⟨1, "A", "a/b/c"⟩ =
      (none, [("a/b/c", ⟨some "a/b/c", some "", some "go", some false,
        [⟨some 1, some "A"⟩]⟩)]) := by
    simp [addMessage, boltUpdate, addMessageTx, bucketGet, bucketPut, demoRemote,
      encodeRepository, encodeMessage, IRepository.getID]
  have h := addMessage_idempotent demoRemote []
    [("a/b/c", ⟨some "a/b/c", some "", some "go", some false, [⟨some 1, some "A"⟩]⟩)]
    ⟨1, "A", "a/b/c"⟩ hwf hrm hfresh h1
  exact ⟨hwf, hrm, hfresh, h1, h.1, h.2⟩

/-! ## Claim C4: eligibility monotonicity -/

/-- A store mutation as performed by the daemon loops: an incoming message
(src/cmd/scuttlebuttd/main.go poll) or a notification marking (its notifier
loop). -/
inductive Op where
  | add (remote : String → RemoteResult) (m : Message)
  | mark (id : String)

/-- The state after an operation; a failed operation leaves the state
unchanged through the transaction rollback. -/
def applyOp (b : Bucket) : Op → Bucket
  | .add remote m => (addMessage remote b m).2
  | .mark id => (markNotified b id).2

def applyOps (b : Bucket) (ops : List Op) : Bucket :=
  ops.foldl applyOp b

/-- A well-behaved operation: message additions go through a resolver that
answers for the requested ID, as github.Store.Repository does. -/
def Op.WF : Op → Prop
  | .add remote _ => RemoteWF remote
  | .mark _ => True

/-- Invariant carried by the monotonicity proof: keys ordered, every record
stored under its own ID, and the marked repository present with its notified
flag set. -/
def InvNotified (r : String) (b : Bucket) : Prop :=
  KeysOrdered b ∧ (∀ e ∈ b, e.2.getID = e.1) ∧
    ∃ ir, bucketGet b r = some ir ∧ ir.getNotified = true

theorem ids_bucketPut (b : Bucket) (k : String) (v : IRepository)
    (hids : ∀ e ∈ b, e.2.getID = e.1) (hv : v.getID = k) :
    ∀ e ∈ bucketPut b k v, e.2.getID = e.1 := by
  intro e he
  rcases mem_bucketPut he with rfl | he
  · exact hv
  · exact hids e he

theorem invNotified_addMessage (r : String) (remote : String → RemoteResult)
    (b : Bucket) (m : Message) (hrm : RemoteWF remote) (hinv : InvNotified r b) :
    InvNotified r (addMessage remote b m).2 := by
  obtain ⟨hord, hids, irN, hgN, hnotif⟩ := hinv
  cases hg : bucketGet b m.RepositoryID with
  | some ir =>
    have hid : ir.getID = m.RepositoryID := hids _ (bucketGet_mem hg)
    cases hdup : ir.Messages.any (fun msg => msg.getID == m.ID) with
    | true =>
      rw [addMessage_of_dup remote b m ir hg hdup]
      exact ⟨hord, hids, irN, hgN, hnotif⟩
    | false =>
      rw [addMessage_of_append remote b m ir hg hdup]
      refine ⟨keysOrdered_bucketPut _ _ hord, ids_bucketPut _ _ _ hids rfl, ?_⟩
      by_cases hk : m.RepositoryID = r
      · have hirN : ir = irN := by
          rw [hk] at hg
          rw [hg] at hgN
          exact Option.some.inj hgN
        subst hirN
        refine ⟨{ ir with Messages := ir.Messages ++ [encodeMessage m] }, ?_, hnotif⟩
        have hkey : ir.getID = r := hid.trans hk
        rw [← hkey]
        exact bucketPut_get_same ..
      · refine ⟨irN, ?_, hnotif⟩
        rw [bucketPut_get_other _ _ _ _
          (show r ≠ ir.getID from fun h => hk ((h.trans hid).symm))]
        exact hgN
  | none =>
    cases hr : remote m.RepositoryID with
    | err s =>
      have heq : addMessage remote b m = (some (.remote ("remote: " ++ s)), b) := by
        simp [addMessage, boltUpdate, addMessageTx, hg, hr]
      rw [heq]
      exact ⟨hord, hids, irN, hgN, hnotif⟩
    | notFound =>
      have heq : addMessage remote b m = (some .repositoryNotFound, b) := by
        simp [addMessage, boltUpdate, addMessageTx, hg, hr]
      rw [heq]
      exact ⟨hord, hids, irN, hgN, hnotif⟩
    | ok repo =>
      have hidr : repo.ID = m.RepositoryID := hrm _ _ hr
      have hk : r ≠ m.RepositoryID := by
        intro h
        rw [← h] at hg
        rw [hg] at hgN
        exact Option.noConfusion hgN
      cases hany : (encodeRepository repo).Messages.any (fun msg => msg.getID == m.ID) with
      | true =>
        have heq : addMessage remote b m = (none, b) := by
          simp [addMessage, boltUpdate, addMessageTx, hg, hr, hany]
        rw [heq]
        exact ⟨hord, hids, irN, hgN, hnotif⟩
      | false =>
        rw [addMessage_of_create remote b m repo hg hr hany]
        refine ⟨keysOrdered_bucketPut _ _ hord,
          ids_bucketPut _ _ _ hids (by rw [getID_with_messages]; rfl), irN, ?_, hnotif⟩
        rw [bucketPut_get_other _ _ _ _ (by rw [hidr]; exact hk)]
        exact hgN

theorem invNotified_markNotified (r id : String) (b : Bucket)
    (hinv : InvNotified r b) : InvNotified r (markNotified b id).2 := by
  obtain ⟨hord, hids, irN, hgN, hnotif⟩ := hinv
  cases hg : bucketGet b id with
  | none =>
    rw [markNotified_of_missing b id hg]
    exact ⟨hord, hids, irN, hgN, hnotif⟩
  | some ir =>
    have hid : ir.getID = id := hids _ (bucketGet_mem hg)
    rw [markNotified_of_found b id ir hg]
    refine ⟨keysOrdered_bucketPut _ _ hord, ids_bucketPut _ _ _ hids rfl, ?_⟩
    by_cases hk : id = r
    · refine ⟨{ ir with Notified := some true }, ?_, rfl⟩
      have hkey : ir.getID = r := hid.trans hk
      rw [← hkey]
      exact bucketPut_get_same ..
    · refine ⟨irN, ?_, hnotif⟩
      rw [bucketPut_get_other _ _ _ _
        (show r ≠ ir.getID from fun h => hk (h.trans hid).symm)]
      exact hgN

theorem invNotified_of_markNotified (b b' : Bucket) (r : String)
    (hord : KeysOrdered b) (hids : ∀ e ∈ b, e.2.getID = e.1)
    (h : markNotified b r = (none, b')) : InvNotified r b' := by
  cases hg : bucketGet b r with
  | none =>
    rw [markNotified_of_missing b r hg] at h
    exact absurd h (by simp)
  | some ir =>
    have hid : ir.getID = r := hids _ (bucketGet_mem hg)
    rw [markNotified_of_found b r ir hg] at h
    injection h with h1 h2
    rw [← h2]
    refine ⟨keysOrdered_bucketPut _ _ hord, ids_bucketPut _ _ _ hids rfl,
      { ir with Notified := some true }, ?_, rfl⟩
    rw [← hid]
    exact bucketPut_get_same ..

theorem invNotified_applyOps (r : String) (b : Bucket) (ops : List Op)
    (hops : ∀ op ∈ ops, op.WF) (hinv : InvNotified r b) :
    InvNotified r (applyOps b ops) := by
  induction ops generalizing b with
  | nil => exact hinv
  | cons op rest ih =>
    refine ih (applyOp b op) (fun o ho => hops o (List.mem_cons_of_mem _ ho)) ?_
    cases op with
    | add remote m =>
      exact invNotified_addMessage r remote b m (hops _ (List.mem_cons_self _ _)) hinv
    | mark id => exact invNotified_markNotified r id b hinv

/-- C4: once MarkNotified(r) has succeeded on a well-formed store, r never
appears in the result of TopRepositories after any later sequence of
well-behaved AddMessage / MarkNotified operations -- every later operation
preserves the notified marking, which excludes r from the ranking. -/
theorem markNotified_monotone (b b' : Bucket) (r : String) (ops : List Op)
    (lang : String) (rep : Repository)
    (hord : KeysOrdered b) (hids : ∀ e ∈ b, e.2.getID = e.1)
    (hops : ∀ op ∈ ops, op.WF)
    (hmark : markNotified b r = (none, b'))
    (htop : topRepositories (applyOps b' ops) lang = some rep) :
    rep.ID ≠ r := by
  have hinv := invNotified_applyOps r b' ops hops
    (invNotified_of_markNotified b b' r hord hids hmark)
  obtain ⟨hordF, hidsF, irN, hgN, hnotif⟩ := hinv
  rw [topRepositories_pickMax, Option.map_eq_some'] at htop
  obtain ⟨ir, hpick, hrep⟩ := htop
  obtain ⟨l₁, l₂, heq, -, -⟩ := pickMax_sound _ _ _ hpick
  have hmem : ir ∈ eligibleRepos (applyOps b' ops) lang := by
    rw [heq]
    exact List.mem_append_right _ (List.mem_cons_self _ _)
  obtain ⟨hmem', hfil⟩ := List.mem_filter.mp hmem
  rw [Bool.and_eq_true, Bool.not_eq_true'] at hfil
  obtain ⟨e, he, hesnd⟩ := List.mem_map.mp hmem'
  intro hrid
  rw [← hrep] at hrid
  have hirid : ir.getID = r := hrid
  have hkey : e.1 = r := by rw [← hidsF e he, hesnd, hirid]
  have hget : bucketGet (applyOps b' ops) r = some ir := by
    rw [← hkey]
    refine bucketGet_of_mem hordF ?_
    rw [← hesnd]
    exact he
  rw [hget] at hgN
  have h := Option.some.inj hgN
  rw [← h] at hnotif
  rw [hfil.1] at hnotif
  exact Bool.noConfusion hnotif

theorem markNotified_monotone_witness :
    KeysOrdered
      [("a/b/c", ⟨some "a/b/c", some "", some "go", some false, [⟨some 1, some "A"⟩]⟩),
       ("x/y/z", ⟨some "x/y/z", some "", some "go", some false, [⟨some 9, some "Z"⟩]⟩)] ∧
    (∀ e ∈ ([("a/b/c", ⟨some "a/b/c", some "", some "go", some false, [⟨some 1, some "A"⟩]⟩),
       ("x/y/z", ⟨some "x/y/z", some "", some "go", some false, [⟨some 9, some "Z"⟩]⟩)] :
        Bucket), e.2.getID = e.1) ∧
    (∀ op ∈ [Op.add demoRemote ⟨2, "B", "a/b/c"⟩], op.WF) ∧
    markNotified
      [("a/b/c", ⟨some "a/b/c", some "", some "go", some false, [⟨some 1, some "A"⟩]⟩),
       ("x/y/z", ⟨some "x/y/z", some "", some "go", some false, [⟨some 9, some "Z"⟩]⟩)]
      "a/b/c" =
      (none,
        [("a/b/c", ⟨some "a/b/c", some "", some "go", some true, [⟨some 1, some "A"⟩]⟩),
         ("x/y/z", ⟨some "x/y/z", some "", some "go", some false, [⟨some 9, some "Z"⟩]⟩)]) ∧
    topRepositories (applyOps
      [("a/b/c", ⟨some "a/b/c", some "", some "go", some true, [⟨some 1, some "A"⟩]⟩),
       ("x/y/z", ⟨some "x/y/z", some "", some "go", some false, [⟨some 9, some "Z"⟩]⟩)]
      [Op.add demoRemote ⟨2, "B", "a/b/c"⟩]) "go" =
      some (decodeRepository ⟨some "x/y/z", some "", some "go", some false,
        [⟨some 9, some "Z"⟩]⟩) ∧
    (decodeRepository (⟨some "x/y/z", some "", some "go", some false,
      [⟨some 9, some "Z"⟩]⟩ : IRepository)).ID ≠ "a/b/c" := by
  have hord : KeysOrdered
      [("a/b/c", ⟨some "a/b/c", some "", some "go", some false, [⟨some 1, some "A"⟩]⟩),
       ("x/y/z", ⟨some "x/y/z", some "", some "go", some false, [⟨some 9, some "Z"⟩]⟩)] := by
    simp [KeysOrdered, List.pairwise_cons]
    decide
  have hids : ∀ e ∈ ([("a/b/c", ⟨some "a/b/c", some "", some "go", some false,
        [⟨some 1, some "A"⟩]⟩),
       ("x/y/z", ⟨some "x/y/z", some "", some "go", some false, [⟨some 9, some "Z"⟩]⟩)] :
        Bucket), e.2.getID = e.1 := by
    intro e he
    rcases List.mem_cons.mp he with rfl | he
    · rfl
    · rcases List.mem_cons.mp he with rfl | he
      · rfl
      · simp at he
  have hops : ∀ op ∈ [Op.add demoRemote ⟨2, "B", "a/b/c"⟩], op.WF := by
    intro op hop
    rcases List.mem_cons.mp hop with rfl | hop
    · intro id repo h
      cases h
      rfl
    · simp at hop
  have hmark : markNotified
      [("a/b/c", ⟨some "a/b/c", some "", some "go", some false, [⟨some 1, some "A"⟩]⟩),
       ("x/y/z", ⟨some "x/y/z", some "", some "go", some false, [⟨some 9, some "Z"⟩]⟩)]
      "a/b/c" =
      (none,
        [("a/b/c", ⟨some "a/b/c", some "", some "go", some true, [⟨some 1, some "A"⟩]⟩),
         ("x/y/z", ⟨some "x/y/z", some "", some "go", some false, [⟨some 9, some "Z"⟩]⟩)]) := by
    simp [markNotified, boltUpdate, markNotifiedTx, bucketGet, bucketPut, IRepository.getID]
  have happ : applyOps
      [("a/b/c", ⟨some "a/b/c", some "", some "go", some true, [⟨some 1, some "A"⟩]⟩),
       ("x/y/z", ⟨some "x/y/z", some "", some "go", some false, [⟨some 9, some "Z"⟩]⟩)]
      [Op.add demoRemote ⟨2, "B", "a/b/c"⟩] =
      [("a/b/c", ⟨some "a/b/c", some "", some "go", some true,
          [⟨some 1, some "A"⟩, ⟨some 2, some "B"⟩]⟩),
       ("x/y/z", ⟨some "x/y/z", some "", some "go", some false, [⟨some 9, some "Z"⟩]⟩)] := by
    simp [applyOps, applyOp, addMessage, boltUpdate, addMessageTx, bucketGet, bucketPut,
      demoRemote, encodeMessage, IMessage.getID, IRepository.getID]
  have htop : topRepositories (applyOps
      [("a/b/c", ⟨some "a/b/c", some "", some "go", some true, [⟨some 1, some "A"⟩]⟩),
       ("x/y/z", ⟨some "x/y/z", some "", some "go", some false, [⟨some 9, some "Z"⟩]⟩)]
      [Op.add demoRemote ⟨2, "B", "a/b/c"⟩]) "go" =
      some (decodeRepository ⟨some "x/y/z", some "", some "go", some false,
        [⟨some 9, some "Z"⟩]⟩) := by
    rw [happ]
    decide
  exact ⟨hord, hids, hops, hmark, htop,
    markNotified_monotone _ _ "a/b/c" _ "go" _ hord hids hops hmark htop⟩

end Scuttlebutt
